import Mathlib

/-!
Shallow embedding of `mongoose-jobqueue` (src/mongoose-jobqueue.js).

The two mongo collections are modelled as lists of `Job` records; the store's
monotone `_id` keys and the random hex ack tokens (JobQueueHelper.id) are
modelled by counters carried in the `QueueState`.  Timestamps are integer
milliseconds, as produced by the JavaScript `Date` API; the clock reads inside
one engine call (all made microseconds apart) are modelled by a single `now`
argument.  Payloads and ack tokens are opaque and modelled as naturals.
-/

/-- Millisecond timestamps, as produced by JavaScript `Date.now`. -/
abbrev Time := Int

/-- A persisted job record, following the mongoose schema built in
`JobQueueHelper.buildModel` (lines 59–112): `payload` (required), `visible`
(a date, default `Date.now`), `tries` (default 0), `ack` (optional string),
`deleted` (optional date), `progress` (optional number), plus the
store-assigned unique key `_id`. -/
structure Job where
  _id : Nat
  payload : Nat
  visible : Time
  tries : Nat
  ack : Option Nat
  deleted : Option Time
  progress : Option Nat
deriving DecidableEq, Repr

/-- The queue's effective option record; the constructor's defaults object
(lines 202–210) lists every recognized key. -/
structure Options where
  delay : Nat
  visibility : Nat
  strictAck : Bool
  maxRetries : Nat
  deadQueue : Option String
  raw : Bool
  cosmosDb : Bool
deriving DecidableEq, Repr

/-- Lines 202–210: the defaults object that the constructor stores into
`this.options`. -/
def constructorDefaults : Options :=
  { delay := 0, visibility := 30, strictAck := true, maxRetries := 5,
    deadQueue := none, raw := true, cosmosDb := false }

/-- A configuration object passed by the caller to the constructor: each
recognized key may be present or absent. -/
structure OptsIn where
  delay : Option Nat := none
  visibility : Option Nat := none
  strictAck : Option Bool := none
  maxRetries : Option Nat := none
  deadQueue : Option (Option String) := none
  raw : Option Bool := none
  cosmosDb : Option Bool := none
deriving DecidableEq, Repr

/-- One key of a JavaScript object spread `{ ...first, ...later }`: the later
object's value wins whenever the later object carries the key. -/
def spreadKey {α : Type} (first later : Option α) : Option α :=
  match later with
  | some v => some v
  | none => first

/-- JavaScript object spread `{ ...first, ...later }` over the recognized
option keys. -/
def spreadOpts (first later : OptsIn) : OptsIn :=
  { delay := spreadKey first.delay later.delay,
    visibility := spreadKey first.visibility later.visibility,
    strictAck := spreadKey first.strictAck later.strictAck,
    maxRetries := spreadKey first.maxRetries later.maxRetries,
    deadQueue := spreadKey first.deadQueue later.deadQueue,
    raw := spreadKey first.raw later.raw,
    cosmosDb := spreadKey first.cosmosDb later.cosmosDb }

/-- View of a full options record as an object carrying every recognized key
(which `this.options` does once the defaults are assigned). -/
def optsInOf (o : Options) : OptsIn :=
  { delay := some o.delay, visibility := some o.visibility,
    strictAck := some o.strictAck, maxRetries := some o.maxRetries,
    deadQueue := some o.deadQueue, raw := some o.raw,
    cosmosDb := some o.cosmosDb }

/-- Line 214: `opts = { ...opts, ...this.options }`.  The passed options are
spread first and the defaults object second, so the defaults (present for
every recognized key) overwrite every passed value; the result is bound to the
local variable `opts`. -/
def line214LocalOpts (passed : OptsIn) : OptsIn :=
  spreadOpts passed (optsInOf constructorDefaults)

/-- `this.options` at the end of the constructor: it is assigned the defaults
object at lines 202–210 and never reassigned (the line-214 merge result lives
only in the local `opts`), so the engine's effective configuration is the
defaults regardless of what was passed. -/
def effectiveOptions (_passed : OptsIn) : Options :=
  constructorDefaults

/-- JavaScript `x || d` for an optional numeric argument (used for the
`delay` and `visibility` parameters): `undefined`, `null` and `0` are all
falsy, so any of them selects the default. -/
def jsOr (v : Option Nat) (d : Nat) : Nat :=
  match v with
  | some x => if x = 0 then d else x
  | none => d

/-- `JobQueueHelper.nowPlusSecs` (lines 138–140): `Date.now() + secs * 1000`
milliseconds. -/
def nowPlusSecs (now : Time) (secs : Nat) : Time :=
  now + (secs : Int) * 1000

/-- The primary and dead-letter collections, plus the store's id generators
for each collection and the ack-token generator (modelled as a counter so
that each generated token is fresh). -/
structure QueueState where
  jobs : List Job
  dead : List Job
  nextId : Nat
  deadNextId : Nat
  nextAck : Nat
deriving DecidableEq, Repr

/-- The record matched by a `findOne` / `findOneAndUpdate` issued with
`sort: { _id: 1 }`: among the records satisfying the query, the one with the
least `_id`. -/
def minMatching (p : Job → Bool) : List Job → Option Job
  | [] => none
  | j :: rest =>
    match minMatching p rest with
    | none => if p j then some j else none
    | some b => if p j then (if j._id ≤ b._id then some j else some b) else some b

/-- Apply the atomic update of a `findOneAndUpdate` to the matched record:
the record carrying the given `_id` is replaced by its updated version. -/
def updateById (id : Nat) (f : Job → Job) : List Job → List Job
  | [] => []
  | j :: rest => if j._id = id then f j :: rest else j :: updateById id f rest

/-- The query of `checkout` and `peek` (lines 296–301 and 373–378): `deleted`
is null and `visible <= now`. -/
def checkoutQuery (now : Time) (j : Job) : Bool :=
  decide (j.deleted = none ∧ j.visible ≤ now)

/-- The query built identically by `ping` (lines 411–421) and `acknowledge`
(lines 465–475): the ack token matches, `deleted` is null and — when
`strictAck` is set — `visible > now`. -/
def leaseQuery (opts : Options) (ackTok : Nat) (now : Time) (j : Job) : Bool :=
  decide (j.ack = some ackTok ∧ j.deleted = none ∧ (opts.strictAck = true → now < j.visible))

/-- `checkout`'s update document (lines 316–324): `$set` a freshly generated
ack token and `visible = now + visibility` seconds, `$inc` `tries` by 1. -/
def checkoutUpdate (ackTok : Nat) (now : Time) (visibility : Nat) (j : Job) : Job :=
  { j with ack := some ackTok, visible := nowPlusSecs now visibility, tries := j.tries + 1 }

/-- `ping`'s update document (lines 423–435): always `$set visible`; `$set
progress` only when the percent argument is truthy (so an explicit 0 behaves
like an absent argument); `$set payload` only when a payload was supplied. -/
def pingUpdate (now : Time) (visibility percent : Nat) (payload : Option Nat) (j : Job) : Job :=
  let j1 := { j with visible := nowPlusSecs now visibility }
  let j2 := if percent ≠ 0 then { j1 with progress := some percent } else j1
  match payload with
  | some pl => { j2 with payload := pl }
  | none => j2

/-- `acknowledge` (lines 463–506): a `findOneAndUpdate` with the lease query,
sorted by `_id`, setting `deleted = now` on the matched record and returning
the post-update record; when nothing matched the promise is rejected. -/
def acknowledge (opts : Options) (st : QueueState) (now : Time) (ackTok : Nat) :
    Except String (Job × QueueState) :=
  match minMatching (leaseQuery opts ackTok now) st.jobs with
  | none => .error "Job not found, or visibility window timed out."
  | some m =>
    .ok ({ m with deleted := some now },
         { st with jobs := updateById m._id (fun x => { x with deleted := some now }) st.jobs })

/-- `ping` (lines 406–455): a `findOneAndUpdate` with the lease query, sorted
by `_id`, applying `pingUpdate` and resolving with the post-update record —
or resolving with null when nothing matched (unlike `acknowledge`, it does
not reject in that case). -/
def ping (opts : Options) (st : QueueState) (now : Time) (ackTok : Nat)
    (visibility : Option Nat) (percent : Nat) (payload : Option Nat) :
    Except String (Option Job × QueueState) :=
  let vis := jsOr visibility opts.visibility
  match minMatching (leaseQuery opts ackTok now) st.jobs with
  | none => .ok (none, st)
  | some m =>
    .ok (some (pingUpdate now vis percent payload m),
         { st with jobs := updateById m._id (pingUpdate now vis percent payload) st.jobs })

/-- `peek` (lines 371–392): `findOne` with the checkout query and the `_id`
sort; purely a read, no update. -/
def peek (st : QueueState) (now : Time) : Option Job :=
  minMatching (checkoutQuery now) st.jobs

/-- The state right after checkout's atomic `findOneAndUpdate` claimed record
`r`: `r` is replaced by its updated version and one ack token was consumed
from the generator. -/
def postClaimState (st : QueueState) (now : Time) (vis : Nat) (r : Job) : QueueState :=
  { st with jobs := updateById r._id (checkoutUpdate st.nextAck now vis) st.jobs,
            nextAck := st.nextAck + 1 }

/-- The dead-queue record created at lines 349–352: the over-retried job's
`payload` and `tries`; the schema default supplies `visible = now` and the
store assigns the `_id`. -/
def deadCopy (deadId : Nat) (now : Time) (j : Job) : Job :=
  { _id := deadId, payload := j.payload, visible := now, tries := j.tries,
    ack := none, deleted := none, progress := none }

/-- The state after the dead-letter insert of checkout's eviction branch. -/
def postDeadInsertState (st1 : QueueState) (now : Time) (j : Job) : QueueState :=
  { st1 with dead := st1.dead ++ [deadCopy st1.deadNextId now j],
             deadNextId := st1.deadNextId + 1 }

/-- `checkout` (lines 292–364).  The atomic `findOneAndUpdate` claims the
eligible record with least `_id` and applies `checkoutUpdate`; when no dead
queue is configured, or the incremented `tries` is within `maxRetries`, the
post-update record is resolved.  Otherwise (lines 347–361) a copy is created
in the dead queue, the original is acknowledged by its fresh token — a
failure of that step rejecting the whole call — and checkout recurses.  The
`fuel` argument makes the line-356 recursion structural; fuel 0 stands for
exhausting the (unbounded) recursion depth. -/
def checkout (opts : Options) : Nat → QueueState → Time → Option Nat →
    Except String (Option Job × QueueState)
  | 0, _, _, _ => .error "Maximum call stack size exceeded"
  | fuel + 1, st, now, visibility =>
    let vis := jsOr visibility opts.visibility
    match minMatching (checkoutQuery now) st.jobs with
    | none => .ok (none, st)
    | some r =>
      let j' := checkoutUpdate st.nextAck now vis r
      let st1 := postClaimState st now vis r
      if opts.deadQueue = none then .ok (some j', st1)
      else if j'.tries ≤ opts.maxRetries then .ok (some j', st1)
      else
        let st2 := postDeadInsertState st1 now j'
        -- `this.ack(job.ack)`: the source's `ack` (lines 514–516) is a bare
        -- alias of `acknowledge`.
        match acknowledge opts st2 now st.nextAck with
        | .error e => .error e
        | .ok (_, st3) => checkout opts fuel st3 now (some vis)

/-- The payload argument of `add`: one payload or an array of payloads. -/
inductive PayloadInput where
  | single (p : Nat)
  | list (ps : List Nat)
deriving DecidableEq, Repr

/-- `add`'s resolved value: the one created record, or the array of created
records. -/
inductive AddResult where
  | one (j : Job)
  | many (js : List Job)
deriving DecidableEq, Repr

/-- A fresh record as pushed onto `inserts` (lines 253–264) and created by the
store: the computed visible date and the payload, with the schema defaults
`tries = 0`, no ack, not deleted, no progress, and a store-assigned `_id`. -/
def mkJob (id : Nat) (visible : Time) (payload : Nat) : Job :=
  { _id := id, payload := payload, visible := visible, tries := 0,
    ack := none, deleted := none, progress := none }

/-- The records created for the ordered inserts of one `add` call, with
consecutive store-assigned ids. -/
def createJobs (startId : Nat) (visible : Time) : List Nat → List Job
  | [] => []
  | p :: ps => mkJob startId visible p :: createJobs (startId + 1) visible ps

/-- The visible date computed by `add` (lines 238 and 244):
`delay = delay || options.delay`; `visible = delay ? now + delay : now`. -/
def addVisibleAt (opts : Options) (now : Time) (delay : Option Nat) : Time :=
  let d := jsOr delay opts.delay
  if d ≠ 0 then nowPlusSecs now d else now

/-- `add` (lines 237–283): reject an empty array before touching the store;
otherwise insert one record per payload, all sharing one visible date, and
resolve with the array of created records when more than one record was
inserted — and with the single created record (`result[0]`) otherwise, so an
array argument of length one resolves with a bare record, not an array. -/
def add (opts : Options) (st : QueueState) (now : Time)
    (input : PayloadInput) (delay : Option Nat) :
    Except String (AddResult × QueueState) :=
  let visible := addVisibleAt opts now delay
  match input with
  | .list [] => .error "JobQueue.add(): Payload array length must be greater than 0."
  | .list (p :: ps) =>
    let created := createJobs st.nextId visible (p :: ps)
    let st' := { st with jobs := st.jobs ++ created,
                         nextId := st.nextId + (p :: ps).length }
    if (p :: ps).length > 1 then .ok (.many created, st')
    else .ok (.one (mkJob st.nextId visible p), st')
  | .single p =>
    let st' := { st with jobs := st.jobs ++ createJobs st.nextId visible [p],
                         nextId := st.nextId + 1 }
    .ok (.one (mkJob st.nextId visible p), st')

/-- The `_id` keys of a collection are pairwise distinct (a store invariant:
`_id` is a unique index). -/
def idsNodup (l : List Job) : Prop :=
  (l.map (fun j => j._id)).Nodup

instance (l : List Job) : Decidable (idsNodup l) :=
  inferInstanceAs (Decidable (List.Nodup _))

/-- Every ack token present in the collection was generated before the
generator's next token `n` (freshness of the generator's output). -/
def tokenBelow (n : Nat) (j : Job) : Bool :=
  match j.ack with
  | some t => t < n
  | none => true

/-- Whether an engine result is a fulfilled promise. -/
def resultOk {α : Type} : Except String α → Bool
  | .ok _ => true
  | .error _ => false

/-- Whether an `add` result resolved with an array of records. -/
def returnsMany : Except String (AddResult × QueueState) → Bool
  | .ok (.many _, _) => true
  | _ => false

/-- Constructor options used for the configuration-merge analysis: an explicit
visibility of 15 seconds and an explicit dead-queue name. -/
def c1Passed : OptsIn :=
  { visibility := some 15, deadQueue := some (some "dead-jobs") }

/-- An empty queue state. -/
def emptyQueueState : QueueState := ⟨[], [], 0, 0, 0⟩

/-- A single pending record used to witness the checkout claims. -/
def w2job : Job := ⟨1, 7, 0, 0, none, none, none⟩

def w2st : QueueState := ⟨[w2job], [], 2, 0, 5⟩

/-- Dead-letter witness configuration: retry ceiling 0 with a dead queue. -/
def w3opts : Options :=
  { constructorDefaults with deadQueue := some "dead-jobs", maxRetries := 0 }

def w3job : Job := ⟨1, 42, 0, 0, none, none, none⟩

def w3st : QueueState := ⟨[w3job], [], 2, 0, 5⟩

/-- One leased record (token 3, lease unexpired at time 0). -/
def w4st : QueueState := ⟨[⟨1, 42, 100000, 1, some 3, none, none⟩], [], 2, 0, 4⟩

/-- A leased record whose stored progress is 50 (token 3, unexpired at 0). -/
def c7job : Job := ⟨1, 42, 100000, 1, some 3, none, some 50⟩

def c7state : QueueState := ⟨[c7job], [], 2, 0, 4⟩

/-- An already-deleted record next to a pending one. -/
def w8job : Job := ⟨1, 42, 0, 2, some 0, some 99, none⟩

def w8st : QueueState := ⟨[w8job, ⟨2, 7, 0, 0, none, none, none⟩], [], 3, 0, 1⟩

/-- Options with the degraded-ordering (cosmosDb) mode switched on. -/
def c9opts : Options := { constructorDefaults with cosmosDb := true }

/-- Two eligible records, listed out of `_id` order. -/
def c9state : QueueState :=
  ⟨[⟨5, 11, 0, 0, none, none, none⟩, ⟨2, 22, 0, 0, none, none, none⟩], [], 6, 0, 0⟩

/-- The record checkout claims from `c9state` at time 100. -/
def c9claimed : Job := ⟨2, 22, 30100, 1, some 0, none, none⟩

/-- `c9state` after that checkout. -/
def c9after : QueueState :=
  ⟨[⟨5, 11, 0, 0, none, none, none⟩, c9claimed], [], 6, 0, 1⟩

/-! Helper lemmas about the store model. -/

theorem minMatching_eq_none {p : Job → Bool} :
    ∀ {l : List Job}, minMatching p l = none ↔ ∀ k ∈ l, p k = false := by
  intro l
  induction l with
  | nil => simp [minMatching]
  | cons a rest ih =>
    constructor
    · intro h k hk
      simp only [minMatching] at h
      split at h
      · rename_i hr
        split at h
        · simp at h
        · rename_i hpa
          rcases List.mem_cons.mp hk with rfl | hk'
          · simpa using hpa
          · exact (ih.mp hr) k hk'
      · rename_i b hr
        split at h
        · split at h <;> simp at h
        · simp at h
    · intro h
      have hr : minMatching p rest = none :=
        ih.mpr (fun k hk => h k (List.mem_cons_of_mem _ hk))
      have hpa : p a = false := h a (List.mem_cons_self a rest)
      simp only [minMatching]
      rw [hr, if_neg (by simp [hpa])]

theorem minMatching_mem {p : Job → Bool} :
    ∀ {l : List Job} {j : Job}, minMatching p l = some j → j ∈ l ∧ p j = true := by
  intro l
  induction l with
  | nil => intro j h; simp [minMatching] at h
  | cons a rest ih =>
    intro j h
    simp only [minMatching] at h
    split at h
    · rename_i hr
      split at h
      · rename_i hpa
        obtain rfl := Option.some.inj h
        exact ⟨List.mem_cons_self _ _, hpa⟩
      · simp at h
    · rename_i b hr
      split at h
      · rename_i hpa
        split at h
        · obtain rfl := Option.some.inj h
          exact ⟨List.mem_cons_self _ _, hpa⟩
        · obtain rfl := Option.some.inj h
          obtain ⟨hb, hpb⟩ := ih hr
          exact ⟨List.mem_cons_of_mem _ hb, hpb⟩
      · obtain rfl := Option.some.inj h
        obtain ⟨hb, hpb⟩ := ih hr
        exact ⟨List.mem_cons_of_mem _ hb, hpb⟩

theorem minMatching_le {p : Job → Bool} :
    ∀ {l : List Job} {j : Job}, minMatching p l = some j →
      ∀ k ∈ l, p k = true → j._id ≤ k._id := by
  intro l
  induction l with
  | nil => intro j h; simp [minMatching] at h
  | cons a rest ih =>
    intro j h k hk hpk
    simp only [minMatching] at h
    split at h
    · rename_i hr
      split at h
      · obtain rfl := Option.some.inj h
        rcases List.mem_cons.mp hk with rfl | hk'
        · exact le_refl _
        · exact absurd hpk (by simp [(minMatching_eq_none.mp hr) k hk'])
      · simp at h
    · rename_i b hr
      split at h
      · rename_i hpa
        split at h
        · rename_i hle
          obtain rfl := Option.some.inj h
          rcases List.mem_cons.mp hk with rfl | hk'
          · exact le_refl _
          · exact le_trans hle (ih hr k hk' hpk)
        · rename_i hle
          obtain rfl := Option.some.inj h
          rcases List.mem_cons.mp hk with rfl | hk'
          · exact le_of_not_le hle
          · exact ih hr k hk' hpk
      · rename_i hpa
        obtain rfl := Option.some.inj h
        rcases List.mem_cons.mp hk with rfl | hk'
        · exact absurd hpk hpa
        · exact ih hr k hk' hpk

theorem minMatching_of_mem {p : Job → Bool} {l : List Job} {j : Job}
    (hj : j ∈ l) (hp : p j = true) : ∃ m, minMatching p l = some m := by
  cases hm : minMatching p l with
  | none => exact absurd hp (by simp [minMatching_eq_none.mp hm j hj])
  | some m => exact ⟨m, rfl⟩

theorem updateById_map_id (f : Job → Job) (hf : ∀ j, (f j)._id = j._id) (id : Nat) :
    ∀ l : List Job,
      (updateById id f l).map (fun j => j._id) = l.map (fun j => j._id) := by
  intro l
  induction l with
  | nil => rfl
  | cons a rest ih =>
    by_cases h : a._id = id
    · simp [updateById, h, hf]
    · simp [updateById, h, ih]

theorem mem_updateById_of_ne {id : Nat} {f : Job → Job} {k : Job} :
    ∀ {l : List Job}, k ∈ l → k._id ≠ id → k ∈ updateById id f l := by
  intro l
  induction l with
  | nil => intro h; cases h
  | cons a rest ih =>
    intro hk hne
    by_cases h : a._id = id
    · simp only [updateById, if_pos h]
      rcases List.mem_cons.mp hk with rfl | hk'
      · exact absurd h hne
      · exact List.mem_cons_of_mem _ hk'
    · simp only [updateById, if_neg h]
      rcases List.mem_cons.mp hk with rfl | hk'
      · exact List.mem_cons_self _ _
      · exact List.mem_cons_of_mem _ (ih hk' hne)

theorem mem_updateById_iff {f : Job → Job} :
    ∀ {l : List Job} {r k : Job}, idsNodup l → r ∈ l →
      (k ∈ updateById r._id f l ↔ (k = f r ∨ (k ∈ l ∧ k._id ≠ r._id))) := by
  intro l
  induction l with
  | nil => intro r k _ hr; cases hr
  | cons a rest ih =>
    intro r k hnd hr
    have h0 : a._id ∉ rest.map (fun j => j._id) ∧ (rest.map (fun j => j._id)).Nodup := by
      rw [idsNodup, List.map_cons, List.nodup_cons] at hnd; exact hnd
    obtain ⟨ha, hnd'⟩ := h0
    rcases List.mem_cons.mp hr with rfl | hr'
    · simp only [updateById, if_pos rfl]
      constructor
      · intro hk
        rcases List.mem_cons.mp hk with rfl | hk'
        · exact Or.inl rfl
        · refine Or.inr ⟨List.mem_cons_of_mem _ hk', ?_⟩
          intro hid
          exact ha (by rw [← hid]; exact List.mem_map_of_mem _ hk')
      · rintro (rfl | ⟨hk, hne⟩)
        · exact List.mem_cons_self _ _
        · rcases List.mem_cons.mp hk with rfl | hk'
          · exact absurd rfl hne
          · exact List.mem_cons_of_mem _ hk'
    · have hane : a._id ≠ r._id := by
        intro h
        exact ha (by rw [h]; exact List.mem_map_of_mem _ hr')
      simp only [updateById, if_neg hane]
      constructor
      · intro hk
        rcases List.mem_cons.mp hk with rfl | hk'
        · exact Or.inr ⟨List.mem_cons_self _ _, hane⟩
        · rcases (ih hnd' hr').mp hk' with h1 | ⟨h2, h3⟩
          · exact Or.inl h1
          · exact Or.inr ⟨List.mem_cons_of_mem _ h2, h3⟩
      · rintro (rfl | ⟨hk, hkne⟩)
        · exact List.mem_cons_of_mem _ ((ih hnd' hr').mpr (Or.inl rfl))
        · rcases List.mem_cons.mp hk with rfl | hk'
          · exact List.mem_cons_self _ _
          · exact List.mem_cons_of_mem _ ((ih hnd' hr').mpr (Or.inr ⟨hk', hkne⟩))

theorem eq_of_mem_of_id_eq {l : List Job} {j k : Job} (hnd : idsNodup l)
    (hj : j ∈ l) (hk : k ∈ l) (h : j._id = k._id) : j = k :=
  List.inj_on_of_nodup_map hnd hj hk h

theorem checkoutQuery_spec {now : Time} {j : Job} (h : checkoutQuery now j = true) :
    j.deleted = none ∧ j.visible ≤ now := by
  rw [checkoutQuery, decide_eq_true_eq] at h
  exact h

theorem leaseQuery_spec {opts : Options} {tok : Nat} {now : Time} {j : Job}
    (h : leaseQuery opts tok now j = true) :
    j.ack = some tok ∧ j.deleted = none ∧ (opts.strictAck = true → now < j.visible) := by
  rw [leaseQuery, decide_eq_true_eq] at h
  exact h

theorem tokenBelow_lt {n t : Nat} {j : Job} (h : tokenBelow n j = true)
    (ha : j.ack = some t) : t < n := by
  simp only [tokenBelow] at h
  rw [ha] at h
  simpa using h

/-! Structural lemmas about acknowledge and checkout. -/

theorem acknowledge_ok_elim {opts : Options} {st : QueueState} {now : Time} {tok : Nat}
    {j' : Job} {st' : QueueState}
    (h : acknowledge opts st now tok = .ok (j', st')) :
    ∃ m, minMatching (leaseQuery opts tok now) st.jobs = some m ∧
      j' = { m with deleted := some now } ∧
      st' = { st with
              jobs := updateById m._id (fun x => { x with deleted := some now }) st.jobs } := by
  unfold acknowledge at h
  cases hm : minMatching (leaseQuery opts tok now) st.jobs with
  | none => rw [hm] at h; simp at h
  | some m =>
    rw [hm] at h
    simp only [Except.ok.injEq, Prod.mk.injEq] at h
    exact ⟨m, rfl, h.1.symm, h.2.symm⟩

theorem acknowledge_ok_of_match {opts : Options} {st : QueueState} {now : Time} {tok : Nat}
    {m : Job} (hm : minMatching (leaseQuery opts tok now) st.jobs = some m) :
    acknowledge opts st now tok =
      .ok ({ m with deleted := some now },
           { st with
             jobs := updateById m._id (fun x => { x with deleted := some now }) st.jobs }) := by
  unfold acknowledge
  rw [hm]

theorem acknowledge_error_of_none {opts : Options} {st : QueueState} {now : Time} {tok : Nat}
    (hm : minMatching (leaseQuery opts tok now) st.jobs = none) :
    acknowledge opts st now tok = .error "Job not found, or visibility window timed out." := by
  unfold acknowledge
  rw [hm]

theorem acknowledge_preserves {opts : Options} {st : QueueState} {now : Time} {tok : Nat}
    {j' : Job} {st' : QueueState} (h : acknowledge opts st now tok = .ok (j', st')) :
    st'.jobs.map (fun j => j._id) = st.jobs.map (fun j => j._id)
    ∧ st'.dead = st.dead ∧ st'.nextAck = st.nextAck ∧ st'.deadNextId = st.deadNextId
    ∧ (idsNodup st.jobs → ∀ j ∈ st.jobs, j.deleted ≠ none → j ∈ st'.jobs) := by
  obtain ⟨m, hm, hj, hst⟩ := acknowledge_ok_elim h
  subst hst
  obtain ⟨hmem, hq⟩ := minMatching_mem hm
  refine ⟨updateById_map_id (fun x => { x with deleted := some now }) (fun j => rfl) m._id
    st.jobs, rfl, rfl, rfl, ?_⟩
  intro hnd j hjmem hdel
  apply mem_updateById_of_ne hjmem
  intro hid
  have hjm : j = m := eq_of_mem_of_id_eq hnd hjmem hmem hid
  subst hjm
  exact hdel (leaseQuery_spec hq).2.1

theorem checkout_step_empty {opts : Options} {n : Nat} {st : QueueState} {now : Time}
    {vis : Option Nat} (hm : minMatching (checkoutQuery now) st.jobs = none) :
    checkout opts (n + 1) st now vis = .ok (none, st) := by
  rw [checkout, hm]

theorem checkout_step_return {opts : Options} {n : Nat} {st : QueueState} {now : Time}
    {vis : Option Nat} {r : Job}
    (hm : minMatching (checkoutQuery now) st.jobs = some r)
    (hpath : opts.deadQueue = none ∨ r.tries + 1 ≤ opts.maxRetries) :
    checkout opts (n + 1) st now vis =
      .ok (some (checkoutUpdate st.nextAck now (jsOr vis opts.visibility) r),
           postClaimState st now (jsOr vis opts.visibility) r) := by
  rw [checkout, hm]
  rcases hpath with h | h
  · simp [h]
  · by_cases hd : opts.deadQueue = none
    · simp [hd]
    · simp [hd, checkoutUpdate, h]

theorem checkout_step_dead {opts : Options} {n : Nat} {st : QueueState} {now : Time}
    {vis : Option Nat} {r : Job}
    (hm : minMatching (checkoutQuery now) st.jobs = some r)
    (hdq : ¬ opts.deadQueue = none)
    (hover : ¬ r.tries + 1 ≤ opts.maxRetries) :
    checkout opts (n + 1) st now vis =
      match acknowledge opts
          (postDeadInsertState (postClaimState st now (jsOr vis opts.visibility) r) now
            (checkoutUpdate st.nextAck now (jsOr vis opts.visibility) r)) now st.nextAck with
      | .error e => .error e
      | .ok (_, st3) => checkout opts n st3 now (some (jsOr vis opts.visibility)) := by
  simp only [checkout, hm]
  rw [if_neg hdq]
  rw [if_neg (show ¬ (checkoutUpdate st.nextAck now
    (jsOr vis opts.visibility) r).tries ≤ opts.maxRetries from hover)]

theorem checkout_preserves (opts : Options) :
    ∀ (fuel : Nat) (st : QueueState) (now : Time) (vis : Option Nat)
      (res : Option Job) (st' : QueueState),
      idsNodup st.jobs →
      checkout opts fuel st now vis = .ok (res, st') →
      st'.jobs.map (fun j => j._id) = st.jobs.map (fun j => j._id)
      ∧ (∀ j ∈ st.jobs, j.deleted ≠ none → j ∈ st'.jobs)
      ∧ (∀ dj ∈ st.dead, dj ∈ st'.dead) := by
  intro fuel
  induction fuel with
  | zero =>
    intro st now vis res st' _ h
    simp [checkout] at h
  | succ n ih =>
    intro st now vis res st' hnd h
    cases hm : minMatching (checkoutQuery now) st.jobs with
    | none =>
      rw [checkout_step_empty hm] at h
      simp only [Except.ok.injEq, Prod.mk.injEq] at h
      obtain ⟨-, rfl⟩ := h
      exact ⟨rfl, fun j hj _ => hj, fun dj hdj => hdj⟩
    | some r =>
      obtain ⟨hrmem, hrq⟩ := minMatching_mem hm
      have hrdel : r.deleted = none := (checkoutQuery_spec hrq).1
      have hids1 : (postClaimState st now (jsOr vis opts.visibility) r).jobs.map
          (fun j => j._id) = st.jobs.map (fun j => j._id) :=
        updateById_map_id (checkoutUpdate st.nextAck now (jsOr vis opts.visibility))
          (fun j => rfl) r._id st.jobs
      have hnd1 : idsNodup (postClaimState st now (jsOr vis opts.visibility) r).jobs := by
        rw [idsNodup, hids1]; exact hnd
      have hdel1 : ∀ j ∈ st.jobs, j.deleted ≠ none →
          j ∈ (postClaimState st now (jsOr vis opts.visibility) r).jobs := by
        intro j hj hdel
        apply mem_updateById_of_ne hj
        intro hid
        have hjr : j = r := eq_of_mem_of_id_eq hnd hj hrmem hid
        subst hjr
        exact hdel hrdel
      by_cases hpath : opts.deadQueue = none ∨ r.tries + 1 ≤ opts.maxRetries
      · rw [checkout_step_return hm hpath] at h
        simp only [Except.ok.injEq, Prod.mk.injEq] at h
        obtain ⟨-, rfl⟩ := h
        exact ⟨hids1, hdel1, fun dj hdj => hdj⟩
      · push_neg at hpath
        obtain ⟨hdq, hover⟩ := hpath
        rw [checkout_step_dead hm hdq (by omega)] at h
        cases hack : acknowledge opts
            (postDeadInsertState (postClaimState st now (jsOr vis opts.visibility) r) now
              (checkoutUpdate st.nextAck now (jsOr vis opts.visibility) r)) now st.nextAck with
        | error e => simp only [hack] at h; simp at h
        | ok pair =>
          obtain ⟨aj, st3⟩ := pair
          simp only [hack] at h
          obtain ⟨hids3, hdead3, -, -, hdelpres3⟩ := acknowledge_preserves hack
          have hnd3 : idsNodup st3.jobs := by
            rw [idsNodup, hids3]; exact hnd1
          obtain ⟨hidsF, hdelF, hdeadF⟩ := ih st3 now (some (jsOr vis opts.visibility)) res st' hnd3 h
          refine ⟨by rw [hidsF, hids3]; exact hids1, ?_, ?_⟩
          · intro j hj hdel
            exact hdelF j (hdelpres3 hnd1 j (hdel1 j hj hdel) hdel) hdel
          · intro dj hdj
            apply hdeadF
            rw [hdead3]
            exact List.mem_append_left _ hdj

theorem checkout_ok_tries_le {opts : Options} (hdq : opts.deadQueue ≠ none) :
    ∀ (fuel : Nat) (st : QueueState) (now : Time) (vis : Option Nat)
      (j : Job) (st' : QueueState),
      checkout opts fuel st now vis = .ok (some j, st') → j.tries ≤ opts.maxRetries := by
  intro fuel
  induction fuel with
  | zero => intro st now vis j st' h; simp [checkout] at h
  | succ n ih =>
    intro st now vis j st' h
    cases hm : minMatching (checkoutQuery now) st.jobs with
    | none =>
      rw [checkout_step_empty hm] at h
      simp at h
    | some r =>
      by_cases htr : r.tries + 1 ≤ opts.maxRetries
      · rw [checkout_step_return hm (Or.inr htr)] at h
        simp only [Except.ok.injEq, Prod.mk.injEq, Option.some.injEq] at h
        obtain ⟨hj, -⟩ := h
        subst hj
        simpa [checkoutUpdate] using htr
      · rw [checkout_step_dead hm hdq htr] at h
        cases hack : acknowledge opts
            (postDeadInsertState (postClaimState st now (jsOr vis opts.visibility) r) now
              (checkoutUpdate st.nextAck now (jsOr vis opts.visibility) r)) now st.nextAck with
        | error e => simp only [hack] at h; simp at h
        | ok pair =>
          obtain ⟨aj, st3⟩ := pair
          simp only [hack] at h
          exact ih st3 now (some (jsOr vis opts.visibility)) j st' h

theorem postClaim_token_unique {st : QueueState} {now : Time} {v : Nat} {r : Job}
    (hnd : idsNodup st.jobs) (hrmem : r ∈ st.jobs)
    (hfresh : ∀ j ∈ st.jobs, tokenBelow st.nextAck j = true)
    {k : Job} (hk : k ∈ (postClaimState st now v r).jobs)
    (hak : k.ack = some st.nextAck) :
    k = checkoutUpdate st.nextAck now v r := by
  simp only [postClaimState] at hk
  rcases (mem_updateById_iff hnd hrmem).mp hk with h | ⟨hkmem, -⟩
  · exact h
  · exact absurd (tokenBelow_lt (hfresh k hkmem) hak) (lt_irrefl _)

theorem pingUpdate_fields (now : Time) (v pct : Nat) (pl : Option Nat) (j : Job) :
    (pingUpdate now v pct pl j)._id = j._id
    ∧ (pingUpdate now v pct pl j).tries = j.tries
    ∧ (pingUpdate now v pct pl j).ack = j.ack
    ∧ (pingUpdate now v pct pl j).deleted = j.deleted
    ∧ (pingUpdate now v pct pl j).visible = nowPlusSecs now v
    ∧ (pingUpdate now v pct pl j).progress = (if pct ≠ 0 then some pct else j.progress)
    ∧ (pingUpdate now v pct pl j).payload = pl.getD j.payload := by
  cases pl <;> by_cases hpct : pct ≠ 0 <;> simp [pingUpdate, hpct]

theorem createJobs_map_payload (visible : Time) :
    ∀ (ps : List Nat) (startId : Nat),
      (createJobs startId visible ps).map (fun j => j.payload) = ps := by
  intro ps
  induction ps with
  | nil => intro s; rfl
  | cons p rest ih => intro s; simp [createJobs, mkJob, ih]

theorem createJobs_map_id (visible : Time) :
    ∀ (ps : List Nat) (startId : Nat),
      (createJobs startId visible ps).map (fun j => j._id) =
        List.range' startId ps.length := by
  intro ps
  induction ps with
  | nil => intro s; rfl
  | cons p rest ih => intro s; simp [createJobs, mkJob, ih, List.range']

/-! The claims. -/

/-- C1: the spec requires every explicitly supplied recognized option to take
effect, but the constructor merges the defaults over the passed options
(line 214 spreads `this.options` second) and moreover binds the merged object
to a local variable, leaving `this.options` at the defaults: a caller passing
`{visibility: 15, deadQueue: "dead-jobs"}` gets visibility 30 and no dead
queue.  This contradicts the constructor's own comment ("Extend default
options with the ones passed to the constructor") and the package README, so
the code, not the claim, is at fault. -/
theorem jobqueue_C1 :
    c1Passed.visibility = some 15
    ∧ c1Passed.deadQueue = some (some "dead-jobs")
    ∧ (line214LocalOpts c1Passed).visibility = some 30
    ∧ (line214LocalOpts c1Passed).deadQueue = some none
    ∧ effectiveOptions c1Passed = constructorDefaults
    ∧ (effectiveOptions c1Passed).visibility = 30
    ∧ (effectiveOptions c1Passed).deadQueue = none :=
  ⟨rfl, rfl, rfl, rfl, rfl, rfl, rfl⟩

/-- C9: the claim says that with the degraded-ordering (cosmosDb) mode enabled
the find-and-update is issued without the `_id` sort; in the code the
sort-omitting branch (lines 311–314) is commented out, so checkout always
sorts.  On a queue holding eligible records with `_id` 5 and `_id` 2, a
checkout with `cosmosDb: true` still claims the record with the least `_id`
and behaves exactly as with the mode disabled. -/
theorem jobqueue_C9 :
    c9opts.cosmosDb = true
    ∧ checkout c9opts 1 c9state 100 none = .ok (some c9claimed, c9after)
    ∧ c9claimed._id = 2
    ∧ checkout c9opts 1 c9state 100 none =
        checkout { c9opts with cosmosDb := false } 1 c9state 100 none :=
  ⟨rfl, rfl, rfl, rfl⟩

/-- C10: a visibility argument of 0 to checkout or ping is falsy under the
`visibility || this.options.visibility` resolution, so it is treated exactly
like an absent argument and the queue's configured visibility is used; an
explicit zero-second window cannot be requested. -/
theorem jobqueue_C10 (opts : Options) (fuel : Nat) (st : QueueState) (now : Time)
    (tok pct : Nat) (pl : Option Nat) :
    jsOr (some 0) opts.visibility = opts.visibility
    ∧ checkout opts fuel st now (some 0) = checkout opts fuel st now none
    ∧ ping opts st now tok (some 0) pct pl = ping opts st now tok none pct pl := by
  refine ⟨rfl, ?_, rfl⟩
  cases fuel with
  | zero => rfl
  | succ n => rfl

/-- C5 counterexample: pinging a token that matches no record resolves
successfully with an empty (null) result instead of failing — refuting the
claim that such a ping fails with an error. -/
theorem jobqueue_C5_counterexample :
    ping constructorDefaults emptyQueueState 0 7 none 0 none = .ok (none, emptyQueueState)
    ∧ resultOk (ping constructorDefaults emptyQueueState 0 7 none 0 none) = true :=
  ⟨rfl, rfl⟩

/-- C5 amended: when no record satisfies the lease query, ping completes
successfully with an empty result and an unchanged state (the source resolves
the promise with null; its own doc comment says "The updated job, or null if
non was found"). -/
theorem jobqueue_C5_amended (opts : Options) (st : QueueState) (now : Time)
    (tok : Nat) (vis : Option Nat) (pct : Nat) (pl : Option Nat)
    (h : ∀ j ∈ st.jobs, leaseQuery opts tok now j = false) :
    ping opts st now tok vis pct pl = .ok (none, st) := by
  unfold ping
  rw [minMatching_eq_none.mpr h]

/-- C5 witness: the amended ping behavior at a concrete empty queue. -/
theorem jobqueue_C5_witness :
    ping constructorDefaults emptyQueueState 5 9 (some 60) 10 (some 1) =
      .ok (none, emptyQueueState) :=
  jobqueue_C5_amended constructorDefaults emptyQueueState 5 9 (some 60) 10 (some 1)
    (by decide)

/-- C6 counterexample: adding an array of exactly one payload resolves with
the bare created record, not with a one-element array — refuting the claim
that every list input yields a list result. -/
theorem jobqueue_C6_counterexample :
    add constructorDefaults emptyQueueState 0 (PayloadInput.list [9]) none =
      .ok (.one (mkJob 0 0 9), ⟨[mkJob 0 0 9], [], 1, 0, 0⟩)
    ∧ returnsMany (add constructorDefaults emptyQueueState 0 (PayloadInput.list [9]) none)
        = false :=
  ⟨rfl, rfl⟩

/-- C6 amended: a single payload resolves with the single created record; an
array of two or more payloads resolves with the ordered array of created
records, each carrying its store-assigned consecutive id; an array of exactly
one payload resolves with the bare created record (like a single payload),
and the empty array is rejected before any store access. -/
theorem jobqueue_C6_amended (opts : Options) (st : QueueState) (now : Time)
    (delay : Option Nat) (p : Nat) (ps : List Nat) :
    add opts st now (.single p) delay =
      .ok (.one (mkJob st.nextId (addVisibleAt opts now delay) p),
           { st with jobs := st.jobs ++ createJobs st.nextId (addVisibleAt opts now delay) [p],
                     nextId := st.nextId + 1 })
    ∧ (1 < ps.length →
        add opts st now (.list ps) delay =
          .ok (.many (createJobs st.nextId (addVisibleAt opts now delay) ps),
               { st with jobs := st.jobs ++ createJobs st.nextId (addVisibleAt opts now delay) ps,
                         nextId := st.nextId + ps.length }))
    ∧ (createJobs st.nextId (addVisibleAt opts now delay) ps).map (fun j => j.payload) = ps
    ∧ (createJobs st.nextId (addVisibleAt opts now delay) ps).map (fun j => j._id)
        = List.range' st.nextId ps.length
    ∧ add opts st now (.list [p]) delay =
        .ok (.one (mkJob st.nextId (addVisibleAt opts now delay) p),
             { st with jobs := st.jobs ++ createJobs st.nextId (addVisibleAt opts now delay) [p],
                       nextId := st.nextId + 1 })
    ∧ add opts st now (.list []) delay =
        .error "JobQueue.add(): Payload array length must be greater than 0." := by
  refine ⟨rfl, ?_, createJobs_map_payload _ _ _, createJobs_map_id _ _ _, rfl, rfl⟩
  intro hlen
  cases ps with
  | nil => simp at hlen
  | cons q qs =>
    simp only [add]
    rw [if_pos hlen]

/-- C6 witness: the amended add behavior at concrete inputs. -/
theorem jobqueue_C6_witness :
    add constructorDefaults emptyQueueState 0 (.single 9) none =
      .ok (.one (mkJob emptyQueueState.nextId (addVisibleAt constructorDefaults 0 none) 9),
           { emptyQueueState with
             jobs := emptyQueueState.jobs ++
               createJobs emptyQueueState.nextId (addVisibleAt constructorDefaults 0 none) [9],
             nextId := emptyQueueState.nextId + 1 })
    ∧ (1 < [1, 2].length →
        add constructorDefaults emptyQueueState 0 (.list [1, 2]) none =
          .ok (.many (createJobs emptyQueueState.nextId
                 (addVisibleAt constructorDefaults 0 none) [1, 2]),
               { emptyQueueState with
                 jobs := emptyQueueState.jobs ++
                   createJobs emptyQueueState.nextId
                     (addVisibleAt constructorDefaults 0 none) [1, 2],
                 nextId := emptyQueueState.nextId + [1, 2].length }))
    ∧ (createJobs emptyQueueState.nextId
        (addVisibleAt constructorDefaults 0 none) [1, 2]).map (fun j => j.payload) = [1, 2]
    ∧ (createJobs emptyQueueState.nextId
        (addVisibleAt constructorDefaults 0 none) [1, 2]).map (fun j => j._id)
        = List.range' emptyQueueState.nextId [1, 2].length
    ∧ add constructorDefaults emptyQueueState 0 (.list [9]) none =
        .ok (.one (mkJob emptyQueueState.nextId (addVisibleAt constructorDefaults 0 none) 9),
             { emptyQueueState with
               jobs := emptyQueueState.jobs ++
                 createJobs emptyQueueState.nextId (addVisibleAt constructorDefaults 0 none) [9],
               nextId := emptyQueueState.nextId + 1 })
    ∧ add constructorDefaults emptyQueueState 0 (.list []) none =
        .error "JobQueue.add(): Payload array length must be greater than 0." :=
  jobqueue_C6_amended constructorDefaults emptyQueueState 0 none 9 [1, 2]

/-- C7 counterexample: pinging a matched record with progress 0 leaves the
stored progress (50) untouched — the update document only carries `progress`
when the percent argument is truthy — refuting the claim that a supplied
progress of 0 is written. -/
theorem jobqueue_C7_counterexample :
    ping constructorDefaults c7state 0 3 none 0 none =
      .ok (some ⟨1, 42, 30000, 1, some 3, none, some 50⟩,
           ⟨[⟨1, 42, 30000, 1, some 3, none, some 50⟩], [], 2, 0, 4⟩)
    ∧ (⟨1, 42, 30000, 1, some 3, none, some 50⟩ : Job).progress = some 50
    ∧ (⟨1, 42, 30000, 1, some 3, none, some 50⟩ : Job).progress ≠ some 0 :=
  ⟨rfl, rfl, by decide⟩

/-- C7 amended: a ping that matches a record sets `visible = now + visibility`
and writes the supplied progress only when it is nonzero (progress 0 behaves
like an absent argument and leaves the field unchanged); the payload is
replaced exactly when one is supplied; every other field of the record — and
every other record — is unchanged. -/
theorem jobqueue_C7_amended (opts : Options) (st : QueueState) (now : Time)
    (tok : Nat) (vis : Option Nat) (pct : Nat) (pl : Option Nat) (m : Job)
    (hnd : idsNodup st.jobs)
    (hmin : minMatching (leaseQuery opts tok now) st.jobs = some m) :
    ∃ j' st', ping opts st now tok vis pct pl = .ok (some j', st')
      ∧ j'.progress = (if pct ≠ 0 then some pct else m.progress)
      ∧ j'.payload = pl.getD m.payload
      ∧ j'.visible = nowPlusSecs now (jsOr vis opts.visibility)
      ∧ j'._id = m._id ∧ j'.tries = m.tries ∧ j'.ack = m.ack ∧ j'.deleted = m.deleted
      ∧ j' ∈ st'.jobs
      ∧ (∀ k, k ∈ st'.jobs ↔ (k = j' ∨ (k ∈ st.jobs ∧ k._id ≠ m._id)))
      ∧ st'.dead = st.dead := by
  obtain ⟨hmmem, hmq⟩ := minMatching_mem hmin
  obtain ⟨hid, htries, hack, hdel, hvis, hprog, hpay⟩ :=
    pingUpdate_fields now (jsOr vis opts.visibility) pct pl m
  refine ⟨pingUpdate now (jsOr vis opts.visibility) pct pl m,
    { st with
      jobs := updateById m._id (pingUpdate now (jsOr vis opts.visibility) pct pl) st.jobs },
    ?_, hprog, hpay, hvis, hid, htries, hack, hdel, ?_, ?_, rfl⟩
  · unfold ping
    rw [hmin]
  · exact (mem_updateById_iff hnd hmmem).mpr (Or.inl rfl)
  · intro k
    exact mem_updateById_iff hnd hmmem

/-- C7 witness: the amended ping behavior at a concrete leased record, with a
nonzero progress of 25, a replacement payload, and a 60-second extension. -/
theorem jobqueue_C7_witness :
    ∃ j' st', ping constructorDefaults c7state 0 3 (some 60) 25 (some 77) = .ok (some j', st')
      ∧ j'.progress = (if 25 ≠ 0 then some 25 else c7job.progress)
      ∧ j'.payload = (some 77).getD c7job.payload
      ∧ j'.visible = nowPlusSecs 0 (jsOr (some 60) constructorDefaults.visibility)
      ∧ j'._id = c7job._id ∧ j'.tries = c7job.tries ∧ j'.ack = c7job.ack
      ∧ j'.deleted = c7job.deleted
      ∧ j' ∈ st'.jobs
      ∧ (∀ k, k ∈ st'.jobs ↔ (k = j' ∨ (k ∈ c7state.jobs ∧ k._id ≠ c7job._id)))
      ∧ st'.dead = c7state.dead :=
  jobqueue_C7_amended constructorDefaults c7state 0 3 (some 60) 25 (some 77) c7job
    (by decide) (by decide)

/-- C8: a record whose deleted field is set is never selected nor mutated by
add, checkout, peek, ping, or acknowledge: every conditional update's query
requires deleted to be unset, so the record — deleted timestamp included —
survives each of these operations unchanged in the collection. -/
theorem jobqueue_C8 (opts : Options) (st : QueueState) (now : Time) (j : Job) (d : Time)
    (hj : j ∈ st.jobs) (hdel : j.deleted = some d) (hnd : idsNodup st.jobs) :
    (∀ input delay res st', add opts st now input delay = .ok (res, st') → j ∈ st'.jobs)
    ∧ (∀ fuel vis res st', checkout opts fuel st now vis = .ok (res, st') → j ∈ st'.jobs)
    ∧ peek st now ≠ some j
    ∧ (∀ tok vis pct pl res st',
        ping opts st now tok vis pct pl = .ok (res, st') → j ∈ st'.jobs)
    ∧ (∀ tok j' st', acknowledge opts st now tok = .ok (j', st') → j ∈ st'.jobs) := by
  have hdelne : j.deleted ≠ none := by rw [hdel]; simp
  refine ⟨?_, ?_, ?_, ?_, ?_⟩
  · intro input delay res st' h
    cases input with
    | single p =>
      simp only [add] at h
      simp only [Except.ok.injEq, Prod.mk.injEq] at h
      obtain ⟨-, rfl⟩ := h
      exact List.mem_append_left _ hj
    | list ps =>
      cases ps with
      | nil => simp only [add] at h; simp at h
      | cons q qs =>
        simp only [add] at h
        split at h <;>
          · simp only [Except.ok.injEq, Prod.mk.injEq] at h
            obtain ⟨-, rfl⟩ := h
            exact List.mem_append_left _ hj
  · intro fuel vis res st' h
    exact (checkout_preserves opts fuel st now vis res st' hnd h).2.1 j hj hdelne
  · intro hpk
    have hpk' : minMatching (checkoutQuery now) st.jobs = some j := hpk
    exact hdelne (checkoutQuery_spec (minMatching_mem hpk').2).1
  · intro tok vis pct pl res st' h
    simp only [ping] at h
    cases hm : minMatching (leaseQuery opts tok now) st.jobs with
    | none =>
      simp only [hm] at h
      simp only [Except.ok.injEq, Prod.mk.injEq] at h
      obtain ⟨-, rfl⟩ := h
      exact hj
    | some m =>
      simp only [hm] at h
      simp only [Except.ok.injEq, Prod.mk.injEq] at h
      obtain ⟨-, rfl⟩ := h
      obtain ⟨hmmem, hmq⟩ := minMatching_mem hm
      apply mem_updateById_of_ne hj
      intro hid
      have hjm : j = m := eq_of_mem_of_id_eq hnd hj hmmem hid
      subst hjm
      exact hdelne (leaseQuery_spec hmq).2.1
  · intro tok j' st' h
    exact (acknowledge_preserves h).2.2.2.2 hnd j hj hdelne

/-- C8 witness: the deleted-record immutability at a concrete queue holding a
deleted record (deleted at 99) next to a pending one. -/
theorem jobqueue_C8_witness :
    (∀ input delay res st',
      add constructorDefaults w8st 10 input delay = .ok (res, st') → w8job ∈ st'.jobs)
    ∧ (∀ fuel vis res st',
        checkout constructorDefaults fuel w8st 10 vis = .ok (res, st') → w8job ∈ st'.jobs)
    ∧ peek w8st 10 ≠ some w8job
    ∧ (∀ tok vis pct pl res st',
        ping constructorDefaults w8st 10 tok vis pct pl = .ok (res, st') → w8job ∈ st'.jobs)
    ∧ (∀ tok j' st',
        acknowledge constructorDefaults w8st 10 tok = .ok (j', st') → w8job ∈ st'.jobs) :=
  jobqueue_C8 constructorDefaults w8st 10 w8job 99 (by decide) rfl (by decide)

/-- C4: acknowledge succeeds — atomically setting deleted = now on the matched
record — exactly when some record matches the lease query (token matches,
deleted unset, and under strict-ack an unexpired lease); otherwise it fails
with the not-found/conflict error instead of silently succeeding.  In
particular (under the protocol invariant that a lease token identifies at
most one record) a second acknowledge of the same token fails at every later
time. -/
theorem jobqueue_C4 (opts : Options) (st : QueueState) (now : Time) (tok : Nat)
    (hnd : idsNodup st.jobs)
    (huniq : ∀ j ∈ st.jobs, ∀ k ∈ st.jobs, j.ack = some tok → k.ack = some tok → j = k) :
    ((∃ j' st', acknowledge opts st now tok = .ok (j', st')) ↔
      ∃ j ∈ st.jobs, leaseQuery opts tok now j = true)
    ∧ ((¬ ∃ j ∈ st.jobs, leaseQuery opts tok now j = true) →
        acknowledge opts st now tok = .error "Job not found, or visibility window timed out.")
    ∧ (∀ j' st', acknowledge opts st now tok = .ok (j', st') →
        j'.deleted = some now
        ∧ (∃ m ∈ st.jobs, leaseQuery opts tok now m = true
            ∧ j' = { m with deleted := some now })
        ∧ ∀ now', acknowledge opts st' now' tok =
            .error "Job not found, or visibility window timed out.") := by
  have herr : (¬ ∃ j ∈ st.jobs, leaseQuery opts tok now j = true) →
      acknowledge opts st now tok = .error "Job not found, or visibility window timed out." := by
    intro hno
    apply acknowledge_error_of_none
    apply minMatching_eq_none.mpr
    intro k hk
    rcases Bool.eq_false_or_eq_true (leaseQuery opts tok now k) with hb | hb
    · exact absurd ⟨k, hk, hb⟩ hno
    · exact hb
  refine ⟨⟨?_, ?_⟩, herr, ?_⟩
  · rintro ⟨j', st', h⟩
    obtain ⟨m, hm, -, -⟩ := acknowledge_ok_elim h
    obtain ⟨hmmem, hmq⟩ := minMatching_mem hm
    exact ⟨m, hmmem, hmq⟩
  · rintro ⟨j, hjmem, hjq⟩
    obtain ⟨m, hm⟩ := minMatching_of_mem hjmem hjq
    exact ⟨_, _, acknowledge_ok_of_match hm⟩
  · intro j' st' h
    obtain ⟨m, hm, hj', hst'⟩ := acknowledge_ok_elim h
    obtain ⟨hmmem, hmq⟩ := minMatching_mem hm
    subst hj'
    subst hst'
    refine ⟨rfl, ⟨m, hmmem, hmq, rfl⟩, ?_⟩
    intro now'
    apply acknowledge_error_of_none
    apply minMatching_eq_none.mpr
    intro k hk
    rcases Bool.eq_false_or_eq_true (leaseQuery opts tok now' k) with hb | hb
    · exfalso
      obtain ⟨hkack, hkdel, -⟩ := leaseQuery_spec hb
      rcases (mem_updateById_iff hnd hmmem).mp hk with heq | ⟨hkmem, hkid⟩
      · subst heq; simp at hkdel
      · have hkm : k = m := huniq k hkmem m hmmem hkack (leaseQuery_spec hmq).1
        exact hkid (by rw [hkm])
    · exact hb

/-- C4 witness: the acknowledge claims at a concrete queue holding one leased
record (token 3, lease unexpired at time 0). -/
theorem jobqueue_C4_witness :
    ((∃ j' st', acknowledge constructorDefaults w4st 0 3 = .ok (j', st')) ↔
      ∃ j ∈ w4st.jobs, leaseQuery constructorDefaults 3 0 j = true)
    ∧ ((¬ ∃ j ∈ w4st.jobs, leaseQuery constructorDefaults 3 0 j = true) →
        acknowledge constructorDefaults w4st 0 3 =
          .error "Job not found, or visibility window timed out.")
    ∧ (∀ j' st', acknowledge constructorDefaults w4st 0 3 = .ok (j', st') →
        j'.deleted = some 0
        ∧ (∃ m ∈ w4st.jobs, leaseQuery constructorDefaults 3 0 m = true
            ∧ j' = { m with deleted := some 0 })
        ∧ ∀ now', acknowledge constructorDefaults st' now' 3 =
            .error "Job not found, or visibility window timed out.") :=
  jobqueue_C4 constructorDefaults w4st 0 3 (by decide) (by decide)

/-- C2: on a state holding an eligible record (deleted unset, visible ≤ now),
checkout atomically selects the eligible record with the least insertion-order
key and mutates exactly that record: it writes a freshly generated lease token
(one no existing record carries), sets visible = now + visibility — the
argument, defaulting to the configured visibility — increments tries by
exactly one, leaves every other field and every other record untouched, and
resolves with the post-update record.  (Stated off the dead-letter eviction
path, which claim C3 covers.) -/
theorem jobqueue_C2 (opts : Options) (fuel : Nat) (st : QueueState) (now : Time)
    (vis : Option Nat) (r : Job)
    (hnd : idsNodup st.jobs)
    (hfresh : ∀ j ∈ st.jobs, tokenBelow st.nextAck j = true)
    (hmin : minMatching (checkoutQuery now) st.jobs = some r)
    (hpath : opts.deadQueue = none ∨ r.tries + 1 ≤ opts.maxRetries) :
    r ∈ st.jobs ∧ r.deleted = none ∧ r.visible ≤ now
    ∧ (∀ k ∈ st.jobs, checkoutQuery now k = true → r._id ≤ k._id)
    ∧ ∃ j' st', checkout opts (fuel + 1) st now vis = .ok (some j', st')
        ∧ j' = checkoutUpdate st.nextAck now (jsOr vis opts.visibility) r
        ∧ j'._id = r._id
        ∧ j'.ack = some st.nextAck
        ∧ (∀ k ∈ st.jobs, k.ack ≠ some st.nextAck)
        ∧ j'.visible = nowPlusSecs now (jsOr vis opts.visibility)
        ∧ j'.tries = r.tries + 1
        ∧ j'.payload = r.payload ∧ j'.deleted = none ∧ j'.progress = r.progress
        ∧ j' ∈ st'.jobs
        ∧ (∀ k, k ∈ st'.jobs ↔ (k = j' ∨ (k ∈ st.jobs ∧ k._id ≠ r._id)))
        ∧ st'.dead = st.dead ∧ st'.nextAck = st.nextAck + 1 := by
  obtain ⟨hrmem, hrq⟩ := minMatching_mem hmin
  obtain ⟨hrdel, hrvis⟩ := checkoutQuery_spec hrq
  refine ⟨hrmem, hrdel, hrvis, minMatching_le hmin, ?_⟩
  refine ⟨checkoutUpdate st.nextAck now (jsOr vis opts.visibility) r,
    postClaimState st now (jsOr vis opts.visibility) r,
    checkout_step_return hmin hpath, rfl, rfl, rfl, ?_, rfl, rfl, rfl, hrdel, rfl,
    ?_, ?_, rfl, rfl⟩
  · intro k hk hak
    exact absurd (tokenBelow_lt (hfresh k hk) hak) (lt_irrefl _)
  · exact (mem_updateById_iff hnd hrmem).mpr (Or.inl rfl)
  · intro k
    exact mem_updateById_iff hnd hrmem

/-- C2 witness: the checkout claims at a concrete one-record queue at time 10
with the default configuration. -/
theorem jobqueue_C2_witness :
    w2job ∈ w2st.jobs ∧ w2job.deleted = none ∧ w2job.visible ≤ 10
    ∧ (∀ k ∈ w2st.jobs, checkoutQuery 10 k = true → w2job._id ≤ k._id)
    ∧ ∃ j' st', checkout constructorDefaults (0 + 1) w2st 10 none = .ok (some j', st')
        ∧ j' = checkoutUpdate w2st.nextAck 10 (jsOr none constructorDefaults.visibility) w2job
        ∧ j'._id = w2job._id
        ∧ j'.ack = some w2st.nextAck
        ∧ (∀ k ∈ w2st.jobs, k.ack ≠ some w2st.nextAck)
        ∧ j'.visible = nowPlusSecs 10 (jsOr none constructorDefaults.visibility)
        ∧ j'.tries = w2job.tries + 1
        ∧ j'.payload = w2job.payload ∧ j'.deleted = none ∧ j'.progress = w2job.progress
        ∧ j' ∈ st'.jobs
        ∧ (∀ k, k ∈ st'.jobs ↔ (k = j' ∨ (k ∈ w2st.jobs ∧ k._id ≠ w2job._id)))
        ∧ st'.dead = w2st.dead ∧ st'.nextAck = w2st.nextAck + 1 :=
  jobqueue_C2 constructorDefaults 0 w2st 10 none w2job (by decide) (by decide) (by decide)
    (Or.inl rfl)

/-- C3: with a dead-letter queue configured, checkout never resolves with a
record whose tries exceeds maxRetries (part 1); if the oldest eligible
record's incremented tries exceeds the ceiling, checkout never resolves with
that record (part 2); a failure of the inner acknowledge of the evicted
record fails the whole checkout call with that error (part 3); and whenever
such a checkout resolves, the final state holds a dead-queue copy carrying
the evicted record's payload and (incremented) tries, while the original
record stands acknowledged — deleted at the call's time — in the primary
queue (part 4). -/
theorem jobqueue_C3 (opts : Options) (fuel : Nat) (st : QueueState) (now : Time)
    (vis : Option Nat) (r : Job)
    (hdq : opts.deadQueue ≠ none)
    (hnd : idsNodup st.jobs)
    (hfresh : ∀ j ∈ st.jobs, tokenBelow st.nextAck j = true)
    (hmin : minMatching (checkoutQuery now) st.jobs = some r)
    (hover : opts.maxRetries < r.tries + 1) :
    (∀ f s n v j s', checkout opts f s n v = .ok (some j, s') → j.tries ≤ opts.maxRetries)
    ∧ (∀ st'', checkout opts (fuel + 1) st now vis ≠
        .ok (some (checkoutUpdate st.nextAck now (jsOr vis opts.visibility) r), st''))
    ∧ (∀ e, acknowledge opts
          (postDeadInsertState (postClaimState st now (jsOr vis opts.visibility) r) now
            (checkoutUpdate st.nextAck now (jsOr vis opts.visibility) r)) now st.nextAck
          = .error e →
        checkout opts (fuel + 1) st now vis = .error e)
    ∧ (∀ res st', checkout opts (fuel + 1) st now vis = .ok (res, st') →
        (∃ dj ∈ st'.dead, dj.payload = r.payload ∧ dj.tries = r.tries + 1)
        ∧ (∃ r' ∈ st'.jobs, r'._id = r._id ∧ r'.deleted = some now)) := by
  have hnle : ¬ r.tries + 1 ≤ opts.maxRetries := by omega
  obtain ⟨hrmem, hrq⟩ := minMatching_mem hmin
  have part1 := checkout_ok_tries_le hdq
  refine ⟨part1, ?_, ?_, ?_⟩
  · intro st'' hcontra
    have hle := part1 (fuel + 1) st now vis _ st'' hcontra
    simp only [checkoutUpdate] at hle
    omega
  · intro e he
    rw [checkout_step_dead hmin hdq hnle, he]
  · intro res st' h
    rw [checkout_step_dead hmin hdq hnle] at h
    cases hack : acknowledge opts
        (postDeadInsertState (postClaimState st now (jsOr vis opts.visibility) r) now
          (checkoutUpdate st.nextAck now (jsOr vis opts.visibility) r)) now st.nextAck with
    | error e => simp only [hack] at h; simp at h
    | ok pair =>
      obtain ⟨aj, st3⟩ := pair
      simp only [hack] at h
      obtain ⟨m, hm, haj, hst3⟩ := acknowledge_ok_elim hack
      subst hst3
      obtain ⟨hmmem', hmq⟩ := minMatching_mem hm
      have hmmem1 : m ∈ (postClaimState st now (jsOr vis opts.visibility) r).jobs := hmmem'
      have hmack : m.ack = some st.nextAck := (leaseQuery_spec hmq).1
      have hmj' : m = checkoutUpdate st.nextAck now (jsOr vis opts.visibility) r :=
        postClaim_token_unique hnd hrmem hfresh hmmem1 hmack
      have hids1 : (postClaimState st now (jsOr vis opts.visibility) r).jobs.map
          (fun x => x._id) = st.jobs.map (fun x => x._id) :=
        updateById_map_id (checkoutUpdate st.nextAck now (jsOr vis opts.visibility))
          (fun x => rfl) r._id st.jobs
      have hnd1 : idsNodup (postClaimState st now (jsOr vis opts.visibility) r).jobs := by
        rw [idsNodup, hids1]; exact hnd
      have hnd3 : idsNodup (updateById m._id (fun x => { x with deleted := some now })
          (postClaimState st now (jsOr vis opts.visibility) r).jobs) := by
        rw [idsNodup,
          updateById_map_id (fun x => { x with deleted := some now }) (fun x => rfl) m._id
            (postClaimState st now (jsOr vis opts.visibility) r).jobs, hids1]
        exact hnd
      obtain ⟨-, hdelF, hdeadF⟩ :=
        checkout_preserves opts fuel _ now (some (jsOr vis opts.visibility)) res st' hnd3 h
      constructor
      · refine ⟨deadCopy st.deadNextId now
          (checkoutUpdate st.nextAck now (jsOr vis opts.visibility) r), ?_, rfl, rfl⟩
        apply hdeadF
        exact List.mem_append_right _ (List.mem_singleton.mpr rfl)
      · refine ⟨{ checkoutUpdate st.nextAck now (jsOr vis opts.visibility) r
            with deleted := some now }, ?_, rfl, rfl⟩
        apply hdelF
        · rw [← hmj']
          exact (mem_updateById_iff hnd1 hmmem1).mpr (Or.inl (by rw [hmj']))
        · simp

/-- C3 witness: the dead-letter coupling at a concrete queue with retry
ceiling 0 and a dead queue configured: the single pending record's checkout
(tries becomes 1 > 0) evicts it instead of returning it. -/
theorem jobqueue_C3_witness :
    (∀ f s n v j s', checkout w3opts f s n v = .ok (some j, s') → j.tries ≤ w3opts.maxRetries)
    ∧ (∀ st'', checkout w3opts (1 + 1) w3st 10 none ≠
        .ok (some (checkoutUpdate w3st.nextAck 10 (jsOr none w3opts.visibility) w3job), st''))
    ∧ (∀ e, acknowledge w3opts
          (postDeadInsertState (postClaimState w3st 10 (jsOr none w3opts.visibility) w3job) 10
            (checkoutUpdate w3st.nextAck 10 (jsOr none w3opts.visibility) w3job)) 10
          w3st.nextAck = .error e →
        checkout w3opts (1 + 1) w3st 10 none = .error e)
    ∧ (∀ res st', checkout w3opts (1 + 1) w3st 10 none = .ok (res, st') →
        (∃ dj ∈ st'.dead, dj.payload = w3job.payload ∧ dj.tries = w3job.tries + 1)
        ∧ (∃ r' ∈ st'.jobs, r'._id = w3job._id ∧ r'.deleted = some 10)) :=
  jobqueue_C3 w3opts 1 w3st 10 none w3job (by decide) (by decide) (by decide) (by decide)
    (by decide)
